import Mathlib

set_option maxRecDepth 100000

/-!
Verification development for the science-card-improvement repository.

Shallow embedding of the code under verification:
* `src/core/human_review.py` — change proposals, review paths, PR drafts;
* `src/science_card_improvement/portal/status.py` and
  `src/science_card_improvement/portal/integration.py` — portal client with
  RPC/HTTP fallback and fail-open defaults;
* `src/science_card_improvement/discovery/repository.py` — repository
  metadata, serialization, priority scoring, README quality assessment;
* `src/core/baseline_analyzer.py` — markdown section extraction;
* `src/utils/cache.py` — two-tier cache manager.

Python `datetime.utcnow()` / `time.time()` instants are modelled as natural
numbers supplied by the caller; Python floats are modelled as rationals;
Python dicts (which preserve insertion order) are modelled as association
lists with first-occurrence lookup; effects on the file system are modelled
as explicit state.  A function that can raise is modelled with
`Option`/`Except` or, where the source catches every exception and returns a
default, by returning that default on the modelled failure paths.
-/

/-! ### Generic string/list helpers -/

/-- Whitespace characters recognised by Python's default `str.strip`,
`str.split` and the regex class `\s` (ASCII range). -/
def isPySpace (c : Char) : Bool :=
  c = ' ' || c = '\t' || c = '\n' || c = '\r' || c = '\x0b' || c = '\x0c'

/-- Python `str.strip()`: drop leading and trailing whitespace. -/
def pyStrip (l : List Char) : List Char :=
  ((l.dropWhile isPySpace).reverse.dropWhile isPySpace).reverse

/-- Python substring test `pat in hay` on character lists. -/
def containsSub (pat : List Char) : List Char → Bool
  | [] => pat.isEmpty
  | c :: cs => pat.isPrefixOf (c :: cs) || containsSub pat cs

/-- Python substring test `pat in hay` on strings. -/
def strContains (hay pat : String) : Bool :=
  containsSub pat.data hay.data

/-- Replace every occurrence of one character, as in Python
`s.replace(old, new)` for single-character arguments. -/
def replaceChar (s : String) (old new : Char) : String :=
  ⟨s.data.map (fun c => if c = old then new else c)⟩

/-- Split a character list at newline characters, as Python
`content.split(chr(10))`: always at least one (possibly empty) piece. -/
def splitLines : List Char → List (List Char)
  | [] => [[]]
  | c :: cs =>
    match splitLines cs with
    | [] => [[c]]
    | l :: ls => if c = '\n' then [] :: l :: ls else (c :: l) :: ls

/-- Join lines with newline characters (inverse-direction of `splitLines`),
as Python `chr(10).join(lines)`. -/
def joinLines (ls : List (List Char)) : List Char :=
  List.intercalate ['\n'] ls

/-- Number of whitespace-separated words, as Python `len(s.split())`. -/
def countWordsAux : List Char → Bool → Nat
  | [], _ => 0
  | c :: cs, inWord =>
    if isPySpace c then countWordsAux cs false
    else (if inWord then 0 else 1) + countWordsAux cs true

/-- Number of whitespace-separated words in a character list. -/
def countWords (l : List Char) : Nat := countWordsAux l false

/-! ### Association lists modelling Python dicts

Python dicts preserve insertion order; assignment to an existing key updates
it in place, assignment to a new key appends, and `del` removes the (unique)
binding.  All states reachable through the modelled operations have unique
keys, so removing the first binding is exact. -/

/-- Dict lookup `d.get(k)` / `k in d`. -/
def alGet {β : Type} (k : String) (l : List (String × β)) : Option β :=
  (l.find? (fun p => p.1 = k)).map (·.2)

/-- Dict assignment `d[k] = v`: update in place or append. -/
def alSet {β : Type} (k : String) (v : β) : List (String × β) → List (String × β)
  | [] => [(k, v)]
  | (k₁, v₁) :: rest =>
    if k₁ = k then (k₁, v) :: rest else (k₁, v₁) :: alSet k v rest

/-- Dict deletion `del d[k]`: remove the first binding of the key. -/
def alErase {β : Type} (k : String) (l : List (String × β)) : List (String × β) :=
  l.eraseP (fun p => p.1 = k)

/-- Helper for `argminFirst`: running minimum, strictly-smaller-wins, so the
first binding attaining the minimal value is kept — exactly Python
`min(d, key=d.get)` over an insertion-ordered dict. -/
def argminAux (bk : String) (bv : Nat) : List (String × Nat) → String
  | [] => bk
  | (k, v) :: rest => if v < bv then argminAux k v rest else argminAux bk bv rest

/-- Python `min(d, key=d.get)`: first key with minimal value, `none` on an
empty dict. -/
def argminFirst : List (String × Nat) → Option String
  | [] => none
  | (k, v) :: rest => some (argminAux k v rest)

/-! ### Human review system (`src/core/human_review.py`) -/

/-- `ChangeProposal` dataclass.  The `created_at` timestamp is kept as its
ISO string; the confidence score (a Python float) as a rational. -/
structure ChangeProposal where
  repoId : String
  repoType : String
  changeType : String
  filePath : String
  originalContent : Option String
  proposedContent : String
  summary : String
  improvements : List String
  risks : List String
  confidenceScore : ℚ
  createdAt : String
  reviewed : Bool := false
  approved : Bool := false
  reviewerNotes : String := ""
deriving DecidableEq, Repr

/-- `HumanReviewSystem.create_proposal`.  Optional arguments model the
Python `None` defaults (`improvements or []`, `summary or <default>`). -/
def createProposal (repoId repoType filePath proposedContent : String)
    (originalContent : Option String) (summary : String)
    (improvements risks : Option (List String)) (confidenceScore : ℚ)
    (createdAt : String) : ChangeProposal :=
  { repoId := repoId
    repoType := repoType
    changeType := match originalContent with
      | none => "create"
      | some _ => "update"
    filePath := filePath
    originalContent := originalContent
    proposedContent := proposedContent
    summary := if summary = "" then "Card improvement proposal" else summary
    improvements := improvements.getD []
    risks := risks.getD []
    confidenceScore := confidenceScore
    createdAt := createdAt }

/-- `HumanReviewSystem._programmatic_review`: logs a warning and returns
`False` without touching the proposal — never auto-approves. -/
def programmaticReview (proposal : ChangeProposal) : Bool × ChangeProposal :=
  (false, proposal)

/-- `HumanReviewSystem.review_proposal`.  The interactive branch depends on
console input, modelled by the oracle `interactiveReview`; the
non-interactive branch is `_programmatic_review`. -/
def reviewProposal (interactiveReview : ChangeProposal → Bool × ChangeProposal)
    (proposal : ChangeProposal) (interactive : Bool) : Bool × ChangeProposal :=
  if interactive then interactiveReview proposal else programmaticReview proposal

/-- One file change inside a PR draft. -/
structure PrChange where
  path : String
  content : String
  action : String
deriving DecidableEq, Repr

/-- The PR-draft record built by `create_pr_draft`. -/
structure PrDraft where
  repoId : String
  repoType : String
  title : String
  description : String
  branch : String
  changes : List PrChange
  createdAt : String
  autoSubmit : Bool
  requiresConfirmation : Bool
deriving DecidableEq, Repr

/-- `HumanReviewSystem._generate_pr_description`: deterministic string
assembly from the proposal. -/
def generatePrDescription (p : ChangeProposal) : String :=
  let header := "## Summary\n\nThis PR improves the " ++ p.repoType ++
    " card documentation based on automated analysis and comparison with exemplary repositories.\n\n## Changes Made\n\n"
    ++ p.summary ++ "\n\n## Improvements\n\n"
  let bullets := String.join (p.improvements.map (fun imp => "- ✅ " ++ imp ++ "\n"))
  let notes := if p.reviewerNotes = "" then "" else
    "\n## Review Notes\n\n" ++ p.reviewerNotes ++ "\n"
  let tail := "\n## Review Process\n\nThis change was:\n1. Generated by the Science Card Improvement toolkit\n2. Reviewed and approved by a human maintainer\n3. Validated against best practices from repositories like tahoebio/Tahoe-100M\n\n## References\n\n- Poor example (before): [arcinstitute/opengenome2](https://huggingface.co/datasets/arcinstitute/opengenome2)\n- Good example (target): [tahoebio/Tahoe-100M](https://huggingface.co/datasets/tahoebio/Tahoe-100M)\n\n---\n*Generated with Science Card Improvement Toolkit - All changes human-reviewed*\n"
  header ++ bullets ++ notes ++ tail

/-- `HumanReviewSystem.create_pr_draft`.  The proposals directory is
modelled as a list of `(file name, draft)` pairs; `sessionId` and `nowIso`
stand for `self.session_id` and `datetime.utcnow().isoformat()`.  The
unapproved case raises `ValueError` before any write, so the file state is
returned unchanged alongside the error. -/
def createPrDraft (sessionId nowIso : String)
    (files : List (String × PrDraft)) (proposal : ChangeProposal) :
    Except String PrDraft × List (String × PrDraft) :=
  if ¬ proposal.approved then
    (.error "Cannot create PR from unapproved proposal", files)
  else
    let draft : PrDraft :=
      { repoId := proposal.repoId
        repoType := proposal.repoType
        title := "Improve " ++ proposal.repoType ++ " card documentation"
        description := generatePrDescription proposal
        branch := "improve-card-" ++ replaceChar proposal.repoId '/' '-' ++ "-" ++ sessionId
        changes := [{ path := proposal.filePath
                      content := proposal.proposedContent
                      action := proposal.changeType }]
        createdAt := nowIso
        autoSubmit := false
        requiresConfirmation := true }
    let draftPath :=
      "pr_draft_" ++ replaceChar proposal.repoId '/' '_' ++ "_" ++ sessionId ++ ".json"
    (.ok draft, files ++ [(draftPath, draft)])

/-! ### Portal clients (`portal/status.py`, `portal/integration.py`)

Each portal operation tries the Gradio RPC client when one was created and
otherwise the HTTP fallback; any exception on the attempted path is caught
and mapped to a safe default.  The two remote calls are modelled as
`Except Unit` computations supplied by the environment. -/

/-- The record produced by `PortalStatusManager.check_availability`. -/
structure AvailabilityInfo where
  available : Bool
  currentWorker : Option String
  status : String
deriving DecidableEq, Repr

/-- `PortalStatusManager.check_availability`: on any exception returns the
fail-open record with `available = true`. -/
def checkAvailability (clientPresent : Bool)
    (rpc httpCall : Except Unit AvailabilityInfo) : AvailabilityInfo :=
  match (if clientPresent then rpc else httpCall) with
  | .ok r => r
  | .error _ =>
    { available := true
      currentWorker := none
      status := "unknown" }

/-- `PortalDatasetInsight` dataclass (fields used by this development;
maps are modelled as association lists, scores as rationals). -/
structure PortalDatasetInsight where
  repoId : String
  category : String
  qualityMetrics : List (String × String)
  documentationScore : ℚ
  improvementPriority : ℚ
  missingComponents : List String
  recommendedTags : List String
deriving DecidableEq, Repr

/-- `HuggingSciencePortal.search_science_datasets`: parses the raw portal
payload item by item (the parser may reject items); on any exception the
result is the empty list. -/
def searchScienceDatasets {α : Type}
    (parseDatasetInsight : α → Option PortalDatasetInsight)
    (clientPresent : Bool) (rpc httpCall : Except Unit (List α)) :
    List PortalDatasetInsight :=
  match (if clientPresent then rpc else httpCall) with
  | .ok datasets => datasets.filterMap parseDatasetInsight
  | .error _ => []

/-- `HuggingSciencePortal.get_trending_science_datasets`: returns the raw
trending records, or the empty list on any exception. -/
def getTrendingScienceDatasets {α : Type} (clientPresent : Bool)
    (rpc httpCall : Except Unit (List α)) : List α :=
  match (if clientPresent then rpc else httpCall) with
  | .ok trending => trending
  | .error _ => []

/-- `HuggingSciencePortal.get_community_insights`: returns the raw insight
map, or the empty map on any exception. -/
def getCommunityInsights (clientPresent : Bool)
    (rpc httpCall : Except Unit (List (String × String))) :
    List (String × String) :=
  match (if clientPresent then rpc else httpCall) with
  | .ok insights => insights
  | .error _ => []

/-! ### Repository discovery (`science_card_improvement/discovery/repository.py`)

Python `datetime` values are modelled by their calendar fields; `isoformat`
and `datetime.fromisoformat` are modelled on the grammar `isoformat`
actually emits for naive datetimes: `YYYY-MM-DDTHH:MM:SS` with a
`.ffffff` suffix exactly when the microsecond field is non-zero. -/

/-- ASCII digit character for a digit value. -/
def digitChar48 (d : Nat) : Char := Char.ofNat (48 + d)

/-- Two-digit zero-padded decimal rendering (Python `f string 02d`). -/
def pad2 (n : Nat) : List Char := [digitChar48 (n / 10 % 10), digitChar48 (n % 10)]

/-- Four-digit zero-padded decimal rendering (Python `f string 04d`). -/
def pad4 (n : Nat) : List Char :=
  [digitChar48 (n / 1000 % 10), digitChar48 (n / 100 % 10),
   digitChar48 (n / 10 % 10), digitChar48 (n % 10)]

/-- Six-digit zero-padded decimal rendering (Python `f string 06d`). -/
def pad6 (n : Nat) : List Char :=
  [digitChar48 (n / 100000 % 10), digitChar48 (n / 10000 % 10),
   digitChar48 (n / 1000 % 10), digitChar48 (n / 100 % 10),
   digitChar48 (n / 10 % 10), digitChar48 (n % 10)]

/-- A naive Python `datetime` value. -/
structure PyDateTime where
  year : Nat
  month : Nat
  day : Nat
  hour : Nat
  minute : Nat
  second : Nat
  microsecond : Nat
deriving DecidableEq, Repr

/-- `datetime.isoformat()` for a naive datetime: the fractional part is
emitted exactly when the microsecond field is non-zero. -/
def isoformat (t : PyDateTime) : String :=
  ⟨pad4 t.year ++ '-' :: (pad2 t.month ++ '-' :: (pad2 t.day ++ 'T' ::
    (pad2 t.hour ++ ':' :: (pad2 t.minute ++ ':' :: (pad2 t.second ++
      (if t.microsecond = 0 then [] else '.' :: pad6 t.microsecond))))))⟩

/-- Decimal digit value of a character, `none` for non-digits. -/
def digitVal (c : Char) : Option Nat :=
  if '0' ≤ c ∧ c ≤ '9' then some (c.toNat - 48) else none

/-- Two parsed digits combined into a number. -/
def num2 (a b : Char) : Option Nat := do
  let x ← digitVal a
  let y ← digitVal b
  some (10 * x + y)

/-- Four parsed digits combined into a number. -/
def num4 (a b c d : Char) : Option Nat := do
  let x ← num2 a b
  let y ← num2 c d
  some (100 * x + y)

/-- Six parsed digits combined into a number. -/
def num6 (a b c d e f : Char) : Option Nat := do
  let x ← num2 a b
  let y ← num2 c d
  let z ← num2 e f
  some (10000 * x + 100 * y + z)

/-- Consume two digit characters. -/
def parseTwo : List Char → Option (Nat × List Char)
  | a :: b :: rest => (num2 a b).map (fun n => (n, rest))
  | _ => none

/-- Consume four digit characters. -/
def parseFour : List Char → Option (Nat × List Char)
  | a :: b :: c :: d :: rest => (num4 a b c d).map (fun n => (n, rest))
  | _ => none

/-- Consume one expected separator character. -/
def expectChar (c : Char) : List Char → Option (List Char)
  | x :: rest => if x = c then some rest else none
  | _ => none

/-- `datetime.fromisoformat` on the grammar `isoformat` emits:
`YYYY-MM-DDTHH:MM:SS` optionally followed by `.ffffff` (the Python parser
accepts further formats and range-checks the fields, raising `ValueError`
on failure — modelled by `none`). -/
def fromisoformat (l : List Char) : Option PyDateTime := do
  let (y, l) ← parseFour l
  let l ← expectChar '-' l
  let (mo, l) ← parseTwo l
  let l ← expectChar '-' l
  let (d, l) ← parseTwo l
  let l ← expectChar 'T' l
  let (h, l) ← parseTwo l
  let l ← expectChar ':' l
  let (mi, l) ← parseTwo l
  let l ← expectChar ':' l
  let (s, l) ← parseTwo l
  match l with
  | [] => some ⟨y, mo, d, h, mi, s, 0⟩
  | '.' :: u1 :: u2 :: u3 :: u4 :: u5 :: u6 :: [] =>
    (num6 u1 u2 u3 u4 u5 u6).map (fun us => ⟨y, mo, d, h, mi, s, us⟩)
  | _ => none

/-- Field bounds under which a `PyDateTime` prints into fixed-width digit
groups (real Python datetimes satisfy stricter calendar bounds). -/
def ValidTimestamp : Option PyDateTime → Prop
  | none => True
  | some t =>
    t.year < 10000 ∧ t.month < 100 ∧ t.day < 100 ∧ t.hour < 100 ∧
      t.minute < 100 ∧ t.second < 100 ∧ t.microsecond < 1000000

instance (o : Option PyDateTime) : Decidable (ValidTimestamp o) :=
  match o with
  | none => isTrue trivial
  | some _ =>
    inferInstanceAs (Decidable (_ ∧ _ ∧ _ ∧ _ ∧ _ ∧ _ ∧ _))

/-- `RepositoryMetadata` dataclass.  Counts are naturals, float scores are
rationals, dict-valued fields are association lists. -/
structure RepositoryMetadata where
  repoId : String
  repoType : String
  title : String
  description : String
  tags : List String := []
  author : Option String := none
  createdAt : Option PyDateTime := none
  updatedAt : Option PyDateTime := none
  downloads : Nat := 0
  likes : Nat := 0
  views : Nat := 0
  hasReadme : Bool := false
  readmeLength : Nat := 0
  readmeQualityScore : ℚ := 0
  hasDatasetViewer : Bool := false
  datasetSize : Option Nat := none
  numFiles : Nat := 0
  license : Option String := none
  language : Option (List String) := none
  taskCategories : Option (List String) := none
  cardData : Option (List (String × String)) := none
  metrics : List (String × ℚ) := []
  issues : List String := []
  suggestions : List String := []
  priorityScore : ℚ := 0
deriving DecidableEq, Repr

/-- The dictionary produced by `RepositoryMetadata.to_dict`: identical
fields except that timestamps are rendered to ISO strings (or `None`). -/
structure RepoMetaDict where
  repoId : String
  repoType : String
  title : String
  description : String
  tags : List String
  author : Option String
  createdAt : Option String
  updatedAt : Option String
  downloads : Nat
  likes : Nat
  views : Nat
  hasReadme : Bool
  readmeLength : Nat
  readmeQualityScore : ℚ
  hasDatasetViewer : Bool
  datasetSize : Option Nat
  numFiles : Nat
  license : Option String
  language : Option (List String)
  taskCategories : Option (List String)
  cardData : Option (List (String × String))
  metrics : List (String × ℚ)
  issues : List String
  suggestions : List String
  priorityScore : ℚ
deriving DecidableEq, Repr

/-- `RepositoryMetadata.to_dict`. -/
def toDict (m : RepositoryMetadata) : RepoMetaDict :=
  { repoId := m.repoId
    repoType := m.repoType
    title := m.title
    description := m.description
    tags := m.tags
    author := m.author
    createdAt := m.createdAt.map (fun t => isoformat t)
    updatedAt := m.updatedAt.map (fun t => isoformat t)
    downloads := m.downloads
    likes := m.likes
    views := m.views
    hasReadme := m.hasReadme
    readmeLength := m.readmeLength
    readmeQualityScore := m.readmeQualityScore
    hasDatasetViewer := m.hasDatasetViewer
    datasetSize := m.datasetSize
    numFiles := m.numFiles
    license := m.license
    language := m.language
    taskCategories := m.taskCategories
    cardData := m.cardData
    metrics := m.metrics
    issues := m.issues
    suggestions := m.suggestions
    priorityScore := m.priorityScore }

/-- Timestamp handling in `RepositoryMetadata.from_dict`: a truthy string
is parsed with `datetime.fromisoformat` (whose failure raises, modelled by
`none`); `None` — and the falsy empty string, which Python would leave
untouched as a raw string, a dynamic-typing artifact unreachable from
`to_dict` output — stays absent. -/
def parseOptTimestamp : Option String → Option (Option PyDateTime)
  | none => some none
  | some s => if s = "" then some none else (fromisoformat s.data).map some

/-- `RepositoryMetadata.from_dict`. -/
def fromDict (d : RepoMetaDict) : Option RepositoryMetadata := do
  let ca ← parseOptTimestamp d.createdAt
  let ua ← parseOptTimestamp d.updatedAt
  some
    { repoId := d.repoId
      repoType := d.repoType
      title := d.title
      description := d.description
      tags := d.tags
      author := d.author
      createdAt := ca
      updatedAt := ua
      downloads := d.downloads
      likes := d.likes
      views := d.views
      hasReadme := d.hasReadme
      readmeLength := d.readmeLength
      readmeQualityScore := d.readmeQualityScore
      hasDatasetViewer := d.hasDatasetViewer
      datasetSize := d.datasetSize
      numFiles := d.numFiles
      license := d.license
      language := d.language
      taskCategories := d.taskCategories
      cardData := d.cardData
      metrics := d.metrics
      issues := d.issues
      suggestions := d.suggestions
      priorityScore := d.priorityScore }

/-- The license test in `calculate_priority_score`:
`self.license is None or str(self.license).strip() == ""`. -/
def licenseMissing (m : RepositoryMetadata) : Bool :=
  match m.license with
  | none => true
  | some s => pyStrip s.data = []

/-- `RepositoryMetadata.calculate_priority_score` (the returned value; the
source also stores it into `priority_score`). -/
def calculatePriorityScore (m : RepositoryMetadata) : ℚ :=
  let downloadScore := min 15 ((m.downloads : ℚ) / 500)
  let likeScore := min 10 ((m.likes : ℚ) / 10)
  let viewScore := min 5 ((m.views : ℚ) / 20000)
  let popularity := downloadScore + likeScore + viewScore
  let documentation : ℚ :=
    if ¬ m.hasReadme then 40
    else if m.readmeLength < 300 then 25
    else if m.readmeLength < 1000 then 15
    else max 0 (10 - m.readmeQualityScore * 10)
  let completeness : ℚ :=
    (if licenseMissing m then 5 else 0) +
    (if m.tags = [] then 5 else 0) +
    (if m.issues ≠ [] then min 10 ((m.issues.length : ℚ) * 2) else 0)
  min 100 (popularity + documentation + completeness)

/-- Modelled from the spec: the priority-score component formulas of
spec sections 4.6 and 8 (`popularity = min(15, downloads/500) + min(10,
likes/10) + min(5, views/20000)`; `documentation = 40 | 25 | 15 | max(0,
10 - quality*10)`; `completeness = 5 [license absent/blank] + 5 [no tags]
+ min(10, issue_count*2)`; `score = min(100, ...)`). -/
def priorityScoreSpec (m : RepositoryMetadata) : ℚ :=
  let popularity :=
    min 15 ((m.downloads : ℚ) / 500) + min 10 ((m.likes : ℚ) / 10) +
      min 5 ((m.views : ℚ) / 20000)
  let documentation : ℚ :=
    if ¬ m.hasReadme then 40
    else if m.readmeLength < 300 then 25
    else if m.readmeLength < 1000 then 15
    else max 0 (10 - m.readmeQualityScore * 10)
  let completeness : ℚ :=
    (if licenseMissing m then 5 else 0) +
    (if m.tags = [] then 5 else 0) +
    min 10 ((m.issues.length : ℚ) * 2)
  min 100 (popularity + documentation + completeness)

/-- The nine keyword categories of `_assess_readme_quality`. -/
def importantSections : List (List Char) :=
  ["description".data, "installation".data, "usage".data, "data".data,
   "license".data, "citation".data, "authors".data,
   "acknowledgments".data, "references".data]

/-- `RepositoryDiscovery._assess_readme_quality`: 10-point scale (2 for
length over 1000 characters, otherwise 1 for over 500; 1 per keyword
category present case-insensitively), divided by 10 and clamped to 1. -/
def assessReadmeQuality (content : List Char) : ℚ :=
  let lengthScore : ℚ :=
    if 1000 < content.length then 2
    else if 500 < content.length then 1
    else 0
  let contentLower := content.map Char.toLower
  let sectionScore : ℚ :=
    (importantSections.countP (fun s => containsSub s contentLower) : ℚ)
  min 1 ((lengthScore + sectionScore) / 10)

/-! ### Baseline analyzer section extraction (`src/core/baseline_analyzer.py`) -/

/-- Length of the leading run of hash characters of a line. -/
def countLeadingHashes : List Char → Nat
  | '#' :: cs => countLeadingHashes cs + 1
  | _ => 0

/-- Per-line match of the header regex anchored with 1–3 hashes, one or
more whitespace characters and a non-empty remainder, returning the
captured heading stripped (`_extract_sections` applies `strip()`).  The
regex matches exactly when the leading hash run has length 1–3 (a longer
run leaves a hash right after the consumed hashes, failing the whitespace
class for every backtracking choice) and is followed by a whitespace
character plus at least one further character; greedy backtracking makes
the stripped capture equal the stripped remainder. -/
def matchHeader13 (line : List Char) : Option (List Char) :=
  let n := countLeadingHashes line
  let rest := line.drop n
  if 1 ≤ n ∧ n ≤ 3 ∧ 2 ≤ rest.length ∧ rest.head?.any isPySpace = true then
    some (pyStrip rest)
  else none

/-- Capture of the sub-heading regex (4–6 hashes): the remainder after the
greedily consumed whitespace, except that a remainder consisting only of
whitespace backtracks to leave its final character as the capture (no
`strip()` is applied to sub-headings in `_analyze_section`). -/
def subHeaderName (rest : List Char) : List Char :=
  let m := rest.dropWhile isPySpace
  if m.isEmpty then rest.drop (rest.length - 1) else m

/-- Per-line match of the sub-heading regex with 4–6 hashes used by
`_analyze_section` to collect `subsections` (multiline `findall`). -/
def matchHeader46 (line : List Char) : Option (List Char) :=
  let n := countLeadingHashes line
  let rest := line.drop n
  if 4 ≤ n ∧ n ≤ 6 ∧ 2 ≤ rest.length ∧ rest.head?.any isPySpace = true then
    some (subHeaderName rest)
  else none

/-- `CardSection` (the fields relevant here: name, raw content, word
count, recorded sub-headings; the regex-derived presence booleans and the
section quality score of `_analyze_section` are not modelled). -/
structure CardSection where
  name : List Char
  content : List Char
  wordCount : Nat
  subsections : List (List Char)
deriving DecidableEq, Repr

/-- `BaselineAnalyzer._analyze_section` (modelled fields). -/
def analyzeSection (name content : List Char) : CardSection :=
  { name := name
    content := content
    wordCount := countWords content
    subsections := (splitLines content).filterMap matchHeader46 }

/-- Loop of `BaselineAnalyzer._extract_sections`: walk the lines carrying
the currently open section name and its accumulated body lines; a level
1–3 heading closes the open section (text before the first heading is
discarded), any other line is body text; the last open section is closed
at the end.  The source guards each close with `if current_section:`, a
truthiness test, so a section is appended only when its stripped heading
title is non-empty — a heading line whose title strips to the empty
string (e.g. a hash followed by two spaces) opens a section that is
silently discarded when closed. -/
def extractAux :
    Option (List Char) → List (List Char) → List (List Char) → List CardSection
  | cur, acc, [] =>
    (match cur with
     | none => []
     | some n =>
       if n.isEmpty then [] else [analyzeSection n (joinLines acc)])
  | cur, acc, line :: ls =>
    match matchHeader13 line with
    | some name =>
      (match cur with
       | none => []
       | some n =>
         if n.isEmpty then [] else [analyzeSection n (joinLines acc)]) ++
        extractAux (some name) [] ls
    | none => extractAux cur (acc ++ [line]) ls

/-- `BaselineAnalyzer._extract_sections`: split the document at newlines
and run the section-collection loop. -/
def extractSections (content : List Char) : List CardSection :=
  extractAux none [] (splitLines content)

/-- The four-heading document of the segmentation claim. -/
def docC6 : List Char := ("# A\n## B\n### C\n#### D").data

/-! ### Cache manager (`src/utils/cache.py`)

The two tiers of `CacheManager` are explicit state: the in-memory dict and
its per-key access-time dict, and the on-disk tier as a map from file stem
(the MD5 hex digest of the logical key, abstracted as the function
`md5hex`) to the stored entry, where `none` models a corrupted or
unpicklable file whose read raises.  Clock readings are supplied as `now`
arguments. -/

/-- One cache entry: `{value, expiry, created}` with absolute timestamps. -/
structure CacheEntry (α : Type) where
  value : α
  expiry : Nat
  created : Nat
deriving DecidableEq, Repr

/-- The mutable state of a `CacheManager`. -/
structure CacheState (α : Type) where
  memoryCache : List (String × CacheEntry α)
  accessTimes : List (String × Nat)
  diskFiles : List (String × Option (CacheEntry α))
  maxMemorySize : Nat
  defaultTtl : Nat
  hits : Nat := 0
  misses : Nat := 0
  setsCount : Nat := 0
  deletesCount : Nat := 0
deriving DecidableEq, Repr

/-- `CacheManager._is_valid_entry`: the entry (which always carries an
expiry here; an entry without one is subsumed by the corrupted case) is
valid while `now` is before its expiry. -/
def isValidEntry {α : Type} (e : CacheEntry α) (now : Nat) : Bool :=
  decide (now < e.expiry)

/-- `CacheManager._add_to_memory_cache`: when the memory tier has reached
its bound and the access-time dict is non-empty, evict the key with the
oldest access time (first minimum in insertion order), then store the
entry and stamp its access time. -/
def addToMemoryCache {α : Type} (s : CacheState α) (key : String)
    (entry : CacheEntry α) (now : Nat) : CacheState α :=
  let s₁ :=
    if s.maxMemorySize ≤ s.memoryCache.length then
      match argminFirst s.accessTimes with
      | some lru =>
        { s with
          memoryCache := alErase lru s.memoryCache
          accessTimes := alErase lru s.accessTimes }
      | none => s
    else s
  { s₁ with
    memoryCache := alSet key entry s₁.memoryCache
    accessTimes := alSet key now s₁.accessTimes }

/-- Disk phase of `CacheManager.get`: read the file named by the key's
digest; a corrupted file raises during deserialization and the surrounding
handler returns the default; a valid entry is promoted to memory and
counted as a hit; an expired one is unlinked and the lookup is a miss. -/
def getDiskPhase {α : Type} (md5hex : String → String) (s : CacheState α)
    (key : String) (dflt : α) (now : Nat) : α × CacheState α :=
  match alGet (md5hex key) s.diskFiles with
  | some none => (dflt, s)
  | some (some entry) =>
    if isValidEntry entry now then
      let s₁ := addToMemoryCache s key entry now
      (entry.value, { s₁ with hits := s₁.hits + 1 })
    else
      (dflt,
        { s with
          diskFiles := alErase (md5hex key) s.diskFiles
          misses := s.misses + 1 })
  | none => (dflt, { s with misses := s.misses + 1 })

/-- `CacheManager.get`: memory tier first (hit refreshes the access time,
an expired entry is dropped from both memory dicts), then the disk tier;
every exception path returns the caller's default. -/
def cacheGet {α : Type} (md5hex : String → String) (s : CacheState α)
    (key : String) (dflt : α) (now : Nat) : α × CacheState α :=
  match alGet key s.memoryCache with
  | some entry =>
    if isValidEntry entry now then
      (entry.value,
        { s with
          hits := s.hits + 1
          accessTimes := alSet key now s.accessTimes })
    else
      getDiskPhase md5hex
        { s with
          memoryCache := alErase key s.memoryCache
          accessTimes := alErase key s.accessTimes } key dflt now
  | none => getDiskPhase md5hex s key dflt now

/-- `CacheManager.set`: Python `ttl or self.default_ttl` treats a zero TTL
as falsy; the entry is stored in memory (with eviction) and written to the
key's digest file. -/
def cacheSet {α : Type} (md5hex : String → String) (s : CacheState α)
    (key : String) (value : α) (ttl : Option Nat) (now : Nat) :
    CacheState α × Bool :=
  let t := match ttl with
    | some t => if t = 0 then s.defaultTtl else t
    | none => s.defaultTtl
  let entry : CacheEntry α := { value := value, expiry := now + t, created := now }
  let s₁ := addToMemoryCache s key entry now
  ({ s₁ with
      diskFiles := alSet (md5hex key) (some entry) s₁.diskFiles
      setsCount := s₁.setsCount + 1 }, true)

/-- `CacheManager.delete`: drop the key from both memory dicts when
present and unlink the key's digest file when present. -/
def cacheDelete {α : Type} (md5hex : String → String) (s : CacheState α)
    (key : String) : CacheState α × Bool :=
  let s₁ := match alGet key s.memoryCache with
    | some _ =>
      { s with
        memoryCache := alErase key s.memoryCache
        accessTimes := alErase key s.accessTimes }
    | none => s
  ({ s₁ with
      diskFiles := alErase (md5hex key) s₁.diskFiles
      deletesCount := s₁.deletesCount + 1 }, true)

/-- `CacheManager.clear`: with a pattern, delete the memory keys containing
the pattern (via `delete`, which also unlinks their digest files), then
unlink the remaining disk files whose *stem* — the digest, not the logical
key — contains the pattern; without a pattern, drop everything.  Returns
the number of removals counted. -/
def cacheClear {α : Type} (md5hex : String → String) (s : CacheState α)
    (pattern : Option String) : CacheState α × Nat :=
  match pattern with
  | some pat =>
    let keysToDelete :=
      (s.memoryCache.map (fun p => p.1)).filter (fun k => strContains k pat)
    let step := keysToDelete.foldl
      (fun (acc : CacheState α × Nat) k =>
        let r := cacheDelete md5hex acc.1 k
        (r.1, acc.2 + (if r.2 then 1 else 0))) (s, 0)
    let s₁ := step.1
    let matched := s₁.diskFiles.filter (fun p => strContains p.1 pat)
    ({ s₁ with
        diskFiles := s₁.diskFiles.filter (fun p => ! strContains p.1 pat) },
      step.2 + matched.length)
  | none =>
    let cleared := s.memoryCache.length
    let n := s.diskFiles.length
    ({ s with memoryCache := [], accessTimes := [], diskFiles := [] },
      cleared + n)

/-- `CacheManager.cleanup_expired`: drop expired entries from both memory
dicts, then remove expired and corrupted disk files, returning the number
of removals. -/
def cleanupExpired {α : Type} (s : CacheState α) (now : Nat) :
    CacheState α × Nat :=
  let keysToDelete :=
    (s.memoryCache.filter (fun p => ! isValidEntry p.2 now)).map (fun p => p.1)
  let s₁ := keysToDelete.foldl
    (fun (st : CacheState α) k =>
      { st with
        memoryCache := alErase k st.memoryCache
        accessTimes := alErase k st.accessTimes }) s
  let badDisk := s₁.diskFiles.filter (fun p =>
    match p.2 with
    | none => true
    | some e => ! isValidEntry e now)
  ({ s₁ with
      diskFiles := s₁.diskFiles.filter (fun p =>
        match p.2 with
        | none => false
        | some e => isValidEntry e now) },
    keysToDelete.length + badDisk.length)

/-- The memory-tier invariant: the two memory dicts bind exactly the same
keys in the same order, keys are unique, and the tier is within its
configured bound. -/
def CacheInv {α : Type} (s : CacheState α) : Prop :=
  s.memoryCache.map Prod.fst = s.accessTimes.map Prod.fst ∧
  (s.memoryCache.map Prod.fst).Nodup ∧
  s.memoryCache.length ≤ s.maxMemorySize

instance {α : Type} (s : CacheState α) : Decidable (CacheInv s) := by
  unfold CacheInv; infer_instance

/-- The hexadecimal digit characters of an MD5 hex digest. -/
def hexDigits : List Char := ("0123456789abcdef").data

/-- A concrete full memory tier in which the oldest-accessed key `y` is the
most recently inserted one. -/
def cacheC7Ex : CacheState Nat :=
  { memoryCache := [("x", ⟨0, 100, 0⟩), ("y", ⟨1, 100, 0⟩)]
    accessTimes := [("x", 20), ("y", 5)]
    diskFiles := []
    maxMemorySize := 2
    defaultTtl := 3600 }

/-! ### Theorems -/

/-- When no section is open, the accumulated (to-be-discarded) body lines
do not influence the extracted sections. -/
theorem extractAux_acc_irrelevant (ls : List (List Char)) :
    ∀ acc acc₁, extractAux none acc ls = extractAux none acc₁ ls := by
  induction ls with
  | nil => intro acc acc₁; rfl
  | cons l ls ih =>
    intro acc acc₁
    cases h : matchHeader13 l with
    | none => simpa [extractAux, h] using ih (acc ++ [l]) (acc₁ ++ [l])
    | some name => simp [extractAux, h]

/-- The number of extracted sections is the number of open sections that
will survive the truthiness guard plus the number of level 1–3 heading
lines whose stripped title is non-empty. -/
theorem extractAux_length (ls : List (List Char)) :
    ∀ (cur : Option (List Char)) (acc : List (List Char)),
      (extractAux cur acc ls).length =
        (match cur with
         | none => 0
         | some n => if n.isEmpty then 0 else 1) +
          ls.countP (fun l => (matchHeader13 l).any (fun n => ! n.isEmpty)) := by
  induction ls with
  | nil =>
    intro cur acc
    rcases cur with _ | n
    · simp [extractAux]
    · cases hn : n.isEmpty <;> simp [extractAux, hn]
  | cons l ls ih =>
    intro cur acc
    cases h : matchHeader13 l with
    | none =>
      rcases cur with _ | n
      · simp [extractAux, h, ih, List.countP_cons, Option.any]
      · cases hn : n.isEmpty <;>
          simp [extractAux, h, ih, List.countP_cons, Option.any, hn]
    | some name =>
      rcases cur with _ | m
      · cases hn : name.isEmpty
        · simp [extractAux, h, ih, List.countP_cons, Option.any, hn]
          omega
        · simp [extractAux, h, ih, List.countP_cons, Option.any, hn]
      · cases hn : name.isEmpty <;> cases hm : m.isEmpty <;>
          simp [extractAux, h, ih, List.countP_cons, Option.any, hn, hm] <;>
            omega

/-- C1: the non-interactive review path returns "not approved" for every
proposal and leaves the proposal untouched (in particular the `reviewed`
and `approved` flags keep their values, which are `false` for every
proposal built by `create_proposal`); no input makes it approve. -/
theorem c1_noninteractive_review_never_approves :
    ∀ (f : ChangeProposal → Bool × ChangeProposal) (p : ChangeProposal),
      reviewProposal f p false = (false, p) ∧
      (reviewProposal f p false).1 = false ∧
      (reviewProposal f p false).2.reviewed = p.reviewed ∧
      (reviewProposal f p false).2.approved = p.approved ∧
      (∀ rid rty fp pc oc s im rk cs ca,
        (createProposal rid rty fp pc oc s im rk cs ca).reviewed = false ∧
        (createProposal rid rty fp pc oc s im rk cs ca).approved = false) := by
  intro f p
  refine ⟨rfl, rfl, rfl, rfl, ?_⟩
  intro rid rty fp pc oc s im rk cs ca
  exact ⟨rfl, rfl⟩

/-- C3: with the portal unreachable on both the RPC and the HTTP path
(both modelled calls raise), `check_availability` fails open with
`available = true`, and the search/trending/community-insight operations
all return empty collections instead of raising. -/
theorem c3_portal_fail_open :
    ∀ (clientPresent : Bool) (α : Type)
      (parse : α → Option PortalDatasetInsight),
      checkAvailability clientPresent (.error ()) (.error ()) =
        { available := true, currentWorker := none, status := "unknown" } ∧
      (checkAvailability clientPresent (.error ()) (.error ())).available = true ∧
      searchScienceDatasets parse clientPresent (.error ()) (.error ()) = [] ∧
      getTrendingScienceDatasets (α := α) clientPresent (.error ()) (.error ()) = [] ∧
      getCommunityInsights clientPresent (.error ()) (.error ()) = [] := by
  intro clientPresent α parse
  cases clientPresent <;>
    exact ⟨rfl, rfl, rfl, rfl, rfl⟩

/-- C2: `create_pr_draft` fails on every unapproved proposal without
writing a draft file, and on every approved proposal produces a draft with
`auto_submit = false` and `requires_confirmation = true`. -/
theorem c2_pr_draft_precondition :
    ∀ (sessionId nowIso : String) (files : List (String × PrDraft))
      (p : ChangeProposal),
      (p.approved = false →
        createPrDraft sessionId nowIso files p =
          (.error "Cannot create PR from unapproved proposal", files)) ∧
      (p.approved = true →
        ∃ d : PrDraft,
          (createPrDraft sessionId nowIso files p).1 = .ok d ∧
          d.autoSubmit = false ∧ d.requiresConfirmation = true) := by
  intro sessionId nowIso files p
  constructor
  · intro h
    simp [createPrDraft, h]
  · intro h
    have hd : (createPrDraft sessionId nowIso files p).1 = .ok
        { repoId := p.repoId
          repoType := p.repoType
          title := "Improve " ++ p.repoType ++ " card documentation"
          description := generatePrDescription p
          branch := "improve-card-" ++ replaceChar p.repoId '/' '-' ++ "-" ++ sessionId
          changes := [{ path := p.filePath
                        content := p.proposedContent
                        action := p.changeType }]
          createdAt := nowIso
          autoSubmit := false
          requiresConfirmation := true } := by
      simp [createPrDraft, h]
    exact ⟨_, hd, rfl, rfl⟩

/-- Witness for C2 at concrete proposals: an unapproved proposal is
rejected with the file state unchanged, an approved one yields a draft
that is never auto-submitted. -/
theorem c2_pr_draft_precondition_witness :
    (createPrDraft "s1" "t1" []
        (createProposal "o/r" "dataset" "README.md" "new" none "" none none 0 "t0") =
      (.error "Cannot create PR from unapproved proposal", [])) ∧
    (∃ d : PrDraft,
      (createPrDraft "s1" "t1" []
          { createProposal "o/r" "dataset" "README.md" "new" none "" none none 0 "t0" with
            approved := true }).1 = .ok d ∧
      d.autoSubmit = false ∧ d.requiresConfirmation = true) :=
  ⟨(c2_pr_draft_precondition "s1" "t1" []
      (createProposal "o/r" "dataset" "README.md" "new" none "" none none 0 "t0")).1 rfl,
   (c2_pr_draft_precondition "s1" "t1" []
      { createProposal "o/r" "dataset" "README.md" "new" none "" none none 0 "t0" with
        approved := true }).2 rfl⟩

/-- C4: `calculate_priority_score` computes exactly the spec's
`min(100, popularity + documentation + completeness)` formula, and for
every metadata record with `downloads = 5000`, `likes = 100`,
`has_readme = false` the score is strictly above 40 and at most 100. -/
theorem c4_priority_score (m : RepositoryMetadata) :
    calculatePriorityScore m = priorityScoreSpec m ∧
    (m.downloads = 5000 → m.likes = 100 → m.hasReadme = false →
      40 < calculatePriorityScore m ∧ calculatePriorityScore m ≤ 100) := by
  constructor
  · unfold calculatePriorityScore priorityScoreSpec
    rcases h : m.issues with _ | ⟨a, l⟩ <;> simp [h]
  · intro hd hl hr
    simp only [calculatePriorityScore, hd, hl, hr, Bool.false_eq_true,
      not_false_eq_true, ite_true]
    have e1 : min (15 : ℚ) (((5000 : ℕ) : ℚ) / 500) = 10 := by norm_num
    have e2 : min (10 : ℚ) (((100 : ℕ) : ℚ) / 10) = 10 := by norm_num
    have hv : (0 : ℚ) ≤ min 5 ((m.views : ℚ) / 20000) :=
      le_min (by norm_num) (by positivity)
    have h1 : (0 : ℚ) ≤ (if licenseMissing m then (5 : ℚ) else 0) := by
      split <;> norm_num
    have h2 : (0 : ℚ) ≤ (if m.tags = [] then (5 : ℚ) else 0) := by
      split <;> norm_num
    have h3 : (0 : ℚ) ≤
        (if m.issues ≠ [] then min 10 ((m.issues.length : ℚ) * 2) else 0) := by
      split
      · exact le_min (by norm_num) (by positivity)
      · norm_num
    rw [e1, e2]
    constructor
    · exact lt_min (by norm_num) (by linarith)
    · exact min_le_left _ _

/-- Witness for C4 at a concrete record with `downloads = 5000`,
`likes = 100` and no README. -/
theorem c4_priority_score_witness :
    40 < calculatePriorityScore
        { repoId := "o/r", repoType := "dataset", title := "t",
          description := "", downloads := 5000, likes := 100,
          hasReadme := false } ∧
      calculatePriorityScore
        { repoId := "o/r", repoType := "dataset", title := "t",
          description := "", downloads := 5000, likes := 100,
          hasReadme := false } ≤ 100 :=
  (c4_priority_score
    { repoId := "o/r", repoType := "dataset", title := "t",
      description := "", downloads := 5000, likes := 100,
      hasReadme := false }).2 rfl rfl rfl

/-- C5: README quality boundaries — a 1001-character document containing
none of the nine keyword categories scores exactly 0.2, and a document of
501 to 1000 characters containing all nine scores exactly 1. -/
theorem c5_readme_quality_boundaries :
    (∀ content : List Char, content.length = 1001 →
      (∀ kw ∈ importantSections,
        containsSub kw (content.map Char.toLower) = false) →
      assessReadmeQuality content = 1 / 5) ∧
    (∀ content : List Char, 501 ≤ content.length → content.length ≤ 1000 →
      (∀ kw ∈ importantSections,
        containsSub kw (content.map Char.toLower) = true) →
      assessReadmeQuality content = 1) := by
  constructor
  · intro content hlen hnone
    have hcount :
        importantSections.countP
          (fun s => containsSub s (content.map Char.toLower)) = 0 :=
      List.countP_eq_zero.mpr (by
        intro kw hkw
        simp [hnone kw hkw])
    unfold assessReadmeQuality
    rw [hlen]
    simp only [hcount]
    norm_num
  · intro content hlo hhi hall
    have hcount :
        importantSections.countP
          (fun s => containsSub s (content.map Char.toLower)) =
          importantSections.length :=
      List.countP_eq_length.mpr (by
        intro kw hkw
        simp [hall kw hkw])
    unfold assessReadmeQuality
    have hn1 : ¬ (1000 < content.length) := by omega
    have hn2 : 500 < content.length := by omega
    simp only [hcount, hn1, hn2, if_true, if_false]
    norm_num [importantSections]

/-- Witness for C5: the two boundary documents evaluated concretely — 1001
copies of a neutral character, and the nine keywords padded to 501
characters. -/
theorem c5_readme_quality_boundaries_witness :
    assessReadmeQuality (List.replicate 1001 'z') = 1 / 5 ∧
    assessReadmeQuality
      (("description installation usage data license citation authors acknowledgments references").data
        ++ List.replicate 414 'z') = 1 :=
  ⟨c5_readme_quality_boundaries.1 (List.replicate 1001 'z') (by decide)
    (by decide),
   c5_readme_quality_boundaries.2
    (("description installation usage data license citation authors acknowledgments references").data
      ++ List.replicate 414 'z') (by decide) (by decide) (by decide)⟩

/-- C6: segmenting the document with headings of levels 1,2,3,4 yields
exactly the three sections A, B, C with the level-4 heading D recorded as
a sub-heading of C; in general the discarded text before the first
level 1–3 heading never affects the section list, and only level 1–3
heading lines start sections: the number of sections equals the number of
level 1–3 heading lines whose stripped title is non-empty (the source's
truthiness guard discards a section whose heading strips to the empty
string). -/
theorem c6_section_segmentation :
    ((extractSections docC6).map (fun s => s.name) =
      ["A".data, "B".data, "C".data]) ∧
    ((extractSections docC6).map (fun s => s.subsections) =
      [[], [], ["D".data]]) ∧
    (∀ pre rest : List (List Char),
      (∀ l ∈ pre, matchHeader13 l = none) →
      extractAux none [] (pre ++ rest) = extractAux none [] rest) ∧
    (∀ content : List Char,
      (extractSections content).length =
        (splitLines content).countP
          (fun l => (matchHeader13 l).any (fun n => ! n.isEmpty))) := by
  refine ⟨by decide, by decide, ?_, ?_⟩
  · intro pre rest hpre
    induction pre with
    | nil => rfl
    | cons l pre ih =>
      have hl : matchHeader13 l = none := hpre l (by simp)
      have hrest : ∀ x ∈ pre, matchHeader13 x = none := fun x hx =>
        hpre x (by simp [hx])
      calc extractAux none [] ((l :: pre) ++ rest)
          = extractAux none ([] ++ [l]) (pre ++ rest) := by
            simp [extractAux, hl]
        _ = extractAux none [] (pre ++ rest) :=
            extractAux_acc_irrelevant _ _ _
        _ = extractAux none [] rest := ih hrest
  · intro content
    simpa [extractSections] using
      extractAux_length (splitLines content) none []

/-- Witness for C6: a concrete non-heading preamble line is discarded
without changing the extracted sections. -/
theorem c6_section_segmentation_witness :
    extractAux none [] ([("intro text").data] ++ splitLines docC6) =
      extractAux none [] (splitLines docC6) :=
  c6_section_segmentation.2.2.1 [("intro text").data] (splitLines docC6)
    (by decide)

/-- A successful dict lookup means the key is bound. -/
theorem alGet_mem {β : Type} {k : String} {l : List (String × β)} {v : β}
    (h : alGet k l = some v) : k ∈ l.map Prod.fst := by
  unfold alGet at h
  cases hf : l.find? (fun p => p.1 = k) with
  | none => rw [hf] at h; simp at h
  | some pr =>
    have h1 := List.find?_some hf
    have h2 := List.mem_of_find?_eq_some hf
    have h3 : pr.1 = k := by simpa using h1
    exact h3 ▸ List.mem_map.mpr ⟨pr, h2, rfl⟩

/-- Assigning to a bound key leaves the bound-key list unchanged. -/
theorem alSet_map_fst_of_mem {β : Type} (k : String) (v : β)
    (l : List (String × β)) (h : k ∈ l.map Prod.fst) :
    (alSet k v l).map Prod.fst = l.map Prod.fst := by
  induction l with
  | nil => simp at h
  | cons p l ih =>
    obtain ⟨k₁, v₁⟩ := p
    by_cases hk : k₁ = k
    · simp [alSet, hk]
    · simp only [List.map_cons, List.mem_cons] at h
      have h₂ : k ∈ l.map Prod.fst := h.resolve_left (fun he => hk he.symm)
      simp [alSet, hk, ih h₂]

/-- Assigning to an unbound key appends it to the bound-key list. -/
theorem alSet_map_fst_of_not_mem {β : Type} (k : String) (v : β)
    (l : List (String × β)) (h : k ∉ l.map Prod.fst) :
    (alSet k v l).map Prod.fst = l.map Prod.fst ++ [k] := by
  induction l with
  | nil => simp [alSet]
  | cons p l ih =>
    obtain ⟨k₁, v₁⟩ := p
    simp only [List.map_cons, List.mem_cons, not_or] at h
    have hk : ¬ k₁ = k := fun he => h.1 he.symm
    simp [alSet, hk, ih h.2]

/-- Assigning to a bound key keeps the dict size. -/
theorem alSet_length_of_mem {β : Type} (k : String) (v : β)
    (l : List (String × β)) (h : k ∈ l.map Prod.fst) :
    (alSet k v l).length = l.length := by
  have := congrArg List.length (alSet_map_fst_of_mem k v l h)
  simpa using this

/-- Assigning to an unbound key grows the dict by one. -/
theorem alSet_length_of_not_mem {β : Type} (k : String) (v : β)
    (l : List (String × β)) (h : k ∉ l.map Prod.fst) :
    (alSet k v l).length = l.length + 1 := by
  have := congrArg List.length (alSet_map_fst_of_not_mem k v l h)
  simpa using this

/-- Deletion commutes with taking the bound-key list. -/
theorem alErase_map_fst {β : Type} (k : String) (l : List (String × β)) :
    (alErase k l).map Prod.fst = (l.map Prod.fst).eraseP (fun x => x = k) := by
  induction l with
  | nil => rfl
  | cons p l ih =>
    obtain ⟨k₁, v₁⟩ := p
    by_cases hk : k₁ = k
    · simp [alErase, List.eraseP_cons, hk]
    · simp only [alErase, List.eraseP_cons, List.map_cons] at *
      simp [hk, ih]

/-- Deletion preserves distinctness of bound keys. -/
theorem alErase_nodup {β : Type} (k : String) (l : List (String × β))
    (h : (l.map Prod.fst).Nodup) : ((alErase k l).map Prod.fst).Nodup := by
  rw [alErase_map_fst]
  exact h.sublist (List.eraseP_sublist _)

/-- Assignment preserves distinctness of bound keys. -/
theorem alSet_nodup {β : Type} (k : String) (v : β) (l : List (String × β))
    (h : (l.map Prod.fst).Nodup) : ((alSet k v l).map Prod.fst).Nodup := by
  by_cases hm : k ∈ l.map Prod.fst
  · rw [alSet_map_fst_of_mem k v l hm]; exact h
  · rw [alSet_map_fst_of_not_mem k v l hm]
    simp [List.nodup_append, h, hm]

/-- Deleting a bound key shrinks the dict by one. -/
theorem alErase_length_of_mem {β : Type} (k : String) (l : List (String × β))
    (h : k ∈ l.map Prod.fst) : (alErase k l).length = l.length - 1 := by
  obtain ⟨pr, hpr, hk⟩ := List.mem_map.mp h
  exact List.length_eraseP_of_mem hpr (by simp [hk])

/-- Deletion never grows the dict. -/
theorem alErase_length_le {β : Type} (k : String) (l : List (String × β)) :
    (alErase k l).length ≤ l.length :=
  List.length_eraseP_le _

/-- If the running minimum is at most every remaining value, it wins. -/
theorem argminAux_self (bk : String) (bv : Nat) (l : List (String × Nat))
    (h : ∀ p ∈ l, bv ≤ p.2) : argminAux bk bv l = bk := by
  induction l generalizing bk bv with
  | nil => rfl
  | cons p l ih =>
    obtain ⟨k, v⟩ := p
    have h1 : bv ≤ v := h (k, v) (by simp)
    rw [argminAux, if_neg (by omega)]
    exact ih bk bv (fun q hq => h q (by simp [hq]))

/-- The running minimum lands on the unique strictly-minimal binding when
one exists among the remaining bindings. -/
theorem argminAux_mem_of_min (l : List (String × Nat)) :
    ∀ (bk : String) (bv : Nat) (j : String) (tj : Nat),
      (j, tj) ∈ l → tj < bv → (∀ p ∈ l, p.1 ≠ j → tj < p.2) →
      (l.map Prod.fst).Nodup → argminAux bk bv l = j := by
  induction l with
  | nil => intro bk bv j tj h; simp at h
  | cons p l ih =>
    intro bk bv j tj hmem hlt hmin hnd
    obtain ⟨k, v⟩ := p
    simp only [List.map_cons, List.nodup_cons] at hnd
    rcases List.mem_cons.mp hmem with heq | htail
    · cases heq
      rw [argminAux, if_pos hlt]
      apply argminAux_self
      intro q hq
      by_cases hq1 : q.1 = j
      · exact absurd (hq1 ▸ List.mem_map.mpr ⟨q, hq, rfl⟩) hnd.1
      · exact le_of_lt (hmin q (by simp [hq]) hq1)
    · have hkj : k ≠ j := fun he =>
        hnd.1 (he ▸ List.mem_map.mpr ⟨(j, tj), htail, rfl⟩)
      have hv : tj < v := hmin (k, v) (by simp) hkj
      rw [argminAux]
      by_cases hb : v < bv
      · rw [if_pos hb]
        exact ih k v j tj htail hv (fun q hq h1 => hmin q (by simp [hq]) h1) hnd.2
      · rw [if_neg hb]
        exact ih bk bv j tj htail hlt (fun q hq h1 => hmin q (by simp [hq]) h1) hnd.2

/-- Python `min(d, key=d.get)` returns the key with the unique minimal
value of a duplicate-free dict. -/
theorem argminFirst_unique (l : List (String × Nat)) (j : String) (tj : Nat)
    (hnd : (l.map Prod.fst).Nodup) (hmem : (j, tj) ∈ l)
    (hmin : ∀ p ∈ l, p.1 ≠ j → tj < p.2) : argminFirst l = some j := by
  cases l with
  | nil => simp at hmem
  | cons p l =>
    obtain ⟨k, v⟩ := p
    simp only [List.map_cons, List.nodup_cons] at hnd
    rw [argminFirst]
    rcases List.mem_cons.mp hmem with heq | htail
    · cases heq
      congr 1
      apply argminAux_self
      intro q hq
      by_cases hq1 : q.1 = j
      · exact absurd (hq1 ▸ List.mem_map.mpr ⟨q, hq, rfl⟩) hnd.1
      · exact le_of_lt (hmin q (by simp [hq]) hq1)
    · have hkj : k ≠ j := fun he =>
        hnd.1 (he ▸ List.mem_map.mpr ⟨(j, tj), htail, rfl⟩)
      have hv : tj < v := hmin (k, v) (by simp) hkj
      congr 1
      exact argminAux_mem_of_min l k v j tj htail hv
        (fun q hq h1 => hmin q (by simp [hq]) h1) hnd.2

/-- The running minimum is the seed key or one of the bound keys. -/
theorem argminAux_mem (l : List (String × Nat)) :
    ∀ (bk : String) (bv : Nat),
      argminAux bk bv l = bk ∨ argminAux bk bv l ∈ l.map Prod.fst := by
  induction l with
  | nil => intro bk bv; exact Or.inl rfl
  | cons p l ih =>
    intro bk bv
    obtain ⟨k, v⟩ := p
    rw [argminAux]
    by_cases hb : v < bv
    · rw [if_pos hb]
      rcases ih k v with h | h
      · exact Or.inr (by simp [h])
      · exact Or.inr (by simp [h])
    · rw [if_neg hb]
      rcases ih bk bv with h | h
      · exact Or.inl h
      · exact Or.inr (by simp [h])

/-- The selected LRU key is bound in the access-time dict. -/
theorem argminFirst_mem (l : List (String × Nat)) (k : String)
    (h : argminFirst l = some k) : k ∈ l.map Prod.fst := by
  cases l with
  | nil => simp [argminFirst] at h
  | cons p l =>
    obtain ⟨k₁, v₁⟩ := p
    rw [argminFirst] at h
    have h1 : argminAux k₁ v₁ l = k := by simpa using h
    rcases argminAux_mem l k₁ v₁ with h2 | h2
    · simp [← h1, h2]
    · rw [h1] at h2
      simp [h2]

/-- Erasing the same key from both memory dicts preserves the invariant. -/
theorem erasePair_inv {α : Type} (s : CacheState α) (k : String)
    (h : CacheInv s) :
    CacheInv { s with memoryCache := alErase k s.memoryCache,
                      accessTimes := alErase k s.accessTimes } := by
  obtain ⟨hkeys, hnd, hlen⟩ := h
  refine ⟨?_, alErase_nodup k _ hnd, ?_⟩
  · simp only
    rw [alErase_map_fst, alErase_map_fst, hkeys]
  · simp only
    exact le_trans (alErase_length_le k _) hlen

/-- `_add_to_memory_cache` preserves the invariant as soon as the memory
bound is at least one. -/
theorem addToMemoryCache_inv {α : Type} (s : CacheState α) (key : String)
    (entry : CacheEntry α) (now : Nat) (hmax : 1 ≤ s.maxMemorySize)
    (h : CacheInv s) : CacheInv (addToMemoryCache s key entry now) := by
  obtain ⟨hkeys, hnd, hlen⟩ := h
  have hL : s.accessTimes.length = s.memoryCache.length := by
    have := congrArg List.length hkeys
    simpa using this.symm
  unfold addToMemoryCache
  by_cases hfull : s.maxMemorySize ≤ s.memoryCache.length
  · have hlen2 : s.memoryCache.length = s.maxMemorySize := le_antisymm hlen hfull
    have hne : s.accessTimes ≠ [] := by
      intro he
      rw [he] at hL
      simp at hL
      omega
    obtain ⟨lru, hlru⟩ : ∃ lru, argminFirst s.accessTimes = some lru := by
      cases hx : s.accessTimes with
      | nil => exact absurd hx hne
      | cons p l => exact ⟨_, rfl⟩
    have hmemlru : lru ∈ s.memoryCache.map Prod.fst := by
      rw [hkeys]; exact argminFirst_mem _ _ hlru
    rw [if_pos hfull, hlru]
    have hkeys₁ : (alErase lru s.memoryCache).map Prod.fst =
        (alErase lru s.accessTimes).map Prod.fst := by
      rw [alErase_map_fst, alErase_map_fst, hkeys]
    have hnd₁ : ((alErase lru s.memoryCache).map Prod.fst).Nodup :=
      alErase_nodup lru _ hnd
    have hlen₁ : (alErase lru s.memoryCache).length =
        s.memoryCache.length - 1 := alErase_length_of_mem lru _ hmemlru
    by_cases hm : key ∈ (alErase lru s.memoryCache).map Prod.fst
    · refine ⟨?_, alSet_nodup key _ _ hnd₁, ?_⟩
      · simp only
        rw [alSet_map_fst_of_mem _ _ _ hm,
            alSet_map_fst_of_mem _ _ _ (hkeys₁ ▸ hm), hkeys₁]
      · simp only
        rw [alSet_length_of_mem _ _ _ hm, hlen₁]
        omega
    · refine ⟨?_, alSet_nodup key _ _ hnd₁, ?_⟩
      · simp only
        rw [alSet_map_fst_of_not_mem _ _ _ hm,
            alSet_map_fst_of_not_mem _ _ _ (hkeys₁ ▸ hm), hkeys₁]
      · simp only
        rw [alSet_length_of_not_mem _ _ _ hm, hlen₁]
        omega
  · rw [if_neg hfull]
    have hlt : s.memoryCache.length < s.maxMemorySize := by omega
    by_cases hm : key ∈ s.memoryCache.map Prod.fst
    · refine ⟨?_, alSet_nodup key _ _ hnd, ?_⟩
      · simp only
        rw [alSet_map_fst_of_mem _ _ _ hm,
            alSet_map_fst_of_mem _ _ _ (hkeys ▸ hm), hkeys]
      · simp only
        rw [alSet_length_of_mem _ _ _ hm]
        omega
    · refine ⟨?_, alSet_nodup key _ _ hnd, ?_⟩
      · simp only
        rw [alSet_map_fst_of_not_mem _ _ _ hm,
            alSet_map_fst_of_not_mem _ _ _ (hkeys ▸ hm), hkeys]
      · simp only
        rw [alSet_length_of_not_mem _ _ _ hm]
        omega

/-- The disk phase of `get` preserves the memory-tier invariant. -/
theorem getDiskPhase_inv {α : Type} (md5hex : String → String)
    (s : CacheState α) (key : String) (dflt : α) (now : Nat)
    (hmax : 1 ≤ s.maxMemorySize) (h : CacheInv s) :
    CacheInv (getDiskPhase md5hex s key dflt now).2 := by
  unfold getDiskPhase
  cases hd : alGet (md5hex key) s.diskFiles with
  | none => exact h
  | some o =>
    cases o with
    | none => exact h
    | some entry =>
      by_cases hv : isValidEntry entry now
      · simp only [if_pos hv]
        exact addToMemoryCache_inv s key entry now hmax h
      · simp only [if_neg hv]
        exact h

/-- `get` preserves the memory-tier invariant. -/
theorem cacheGet_inv {α : Type} (md5hex : String → String) (s : CacheState α)
    (key : String) (dflt : α) (now : Nat) (hmax : 1 ≤ s.maxMemorySize)
    (h : CacheInv s) : CacheInv (cacheGet md5hex s key dflt now).2 := by
  unfold cacheGet
  cases hm : alGet key s.memoryCache with
  | none => exact getDiskPhase_inv md5hex s key dflt now hmax h
  | some entry =>
    obtain ⟨hkeys, hnd, hlen⟩ := h
    by_cases hv : isValidEntry entry now
    · simp only [if_pos hv]
      have hk : key ∈ s.accessTimes.map Prod.fst := hkeys ▸ alGet_mem hm
      refine ⟨?_, hnd, hlen⟩
      simp only
      rw [alSet_map_fst_of_mem _ _ _ hk, hkeys]
    · simp only [if_neg hv]
      exact getDiskPhase_inv md5hex _ key dflt now hmax
        (erasePair_inv s key ⟨hkeys, hnd, hlen⟩)

/-- `set` preserves the memory-tier invariant. -/
theorem cacheSet_inv {α : Type} (md5hex : String → String) (s : CacheState α)
    (key : String) (value : α) (ttl : Option Nat) (now : Nat)
    (hmax : 1 ≤ s.maxMemorySize) (h : CacheInv s) :
    CacheInv (cacheSet md5hex s key value ttl now).1 := by
  unfold cacheSet
  exact addToMemoryCache_inv s key _ now hmax h

/-- `delete` preserves the memory-tier invariant. -/
theorem cacheDelete_inv {α : Type} (md5hex : String → String)
    (s : CacheState α) (key : String) (h : CacheInv s) :
    CacheInv (cacheDelete md5hex s key).1 := by
  unfold cacheDelete
  cases hm : alGet key s.memoryCache with
  | none => exact h
  | some entry => exact erasePair_inv s key h

/-- A fold of invariant-preserving steps over a state/count accumulator
preserves the invariant. -/
theorem foldl_pair_inv {α : Type}
    (f : CacheState α × Nat → String → CacheState α × Nat)
    (hf : ∀ acc k, CacheInv acc.1 → CacheInv (f acc k).1)
    (ks : List String) :
    ∀ acc : CacheState α × Nat, CacheInv acc.1 →
      CacheInv (ks.foldl f acc).1 := by
  induction ks with
  | nil => intro acc h; exact h
  | cons k ks ih => intro acc h; exact ih (f acc k) (hf acc k h)

/-- A fold of invariant-preserving steps over the state preserves the
invariant. -/
theorem foldl_state_inv {α : Type} (f : CacheState α → String → CacheState α)
    (hf : ∀ st k, CacheInv st → CacheInv (f st k)) (ks : List String) :
    ∀ st : CacheState α, CacheInv st → CacheInv (ks.foldl f st) := by
  induction ks with
  | nil => intro st h; exact h
  | cons k ks ih => intro st h; exact ih (f st k) (hf st k h)

/-- `clear` preserves the memory-tier invariant. -/
theorem cacheClear_inv {α : Type} (md5hex : String → String)
    (s : CacheState α) (pattern : Option String) (h : CacheInv s) :
    CacheInv (cacheClear md5hex s pattern).1 := by
  unfold cacheClear
  cases pattern with
  | none => exact ⟨rfl, List.nodup_nil, Nat.zero_le _⟩
  | some pat =>
    exact foldl_pair_inv _
      (fun acc k hacc => cacheDelete_inv md5hex acc.1 k hacc) _ (s, 0) h

/-- `cleanup_expired` preserves the memory-tier invariant. -/
theorem cleanupExpired_inv {α : Type} (s : CacheState α) (now : Nat)
    (h : CacheInv s) : CacheInv (cleanupExpired s now).1 := by
  unfold cleanupExpired
  exact foldl_state_inv _ (fun st k hst => erasePair_inv st k hst) _ s h

/-- On a duplicate-free list, erasing the first occurrence of a value is
the same as filtering the value out. -/
theorem eraseP_eq_filter_of_nodup (l : List String) (j : String)
    (hnd : l.Nodup) :
    l.eraseP (fun x => x = j) = l.filter (fun x => x ≠ j) := by
  induction l with
  | nil => rfl
  | cons a l ih =>
    simp only [List.nodup_cons] at hnd
    by_cases ha : a = j
    · rw [List.eraseP_cons_of_pos (by simp [ha]),
        List.filter_cons_of_neg (by simp [ha])]
      symm
      apply List.filter_eq_self.mpr
      intro x hx
      simp only [decide_not, Bool.not_eq_eq_eq_not, Bool.not_true,
        decide_eq_false_iff_not]
      intro hxj
      exact hnd.1 (ha ▸ hxj ▸ hx)
    · rw [List.eraseP_cons_of_neg (by simp [ha]),
        List.filter_cons_of_pos (by simp [ha]), ih hnd.2]

/-- Inserting a fresh key into a full memory tier evicts exactly the key
with the unique oldest access time, leaving the tier at its bound. -/
theorem addToMemoryCache_evicts {α : Type} (s : CacheState α)
    (k j : String) (e : CacheEntry α) (now tj : Nat) (h : CacheInv s)
    (hmax : 1 ≤ s.maxMemorySize)
    (hfull : s.memoryCache.length = s.maxMemorySize)
    (hnew : k ∉ s.memoryCache.map Prod.fst)
    (hjmem : (j, tj) ∈ s.accessTimes)
    (hmin : ∀ p ∈ s.accessTimes, p.1 ≠ j → tj < p.2) :
    (addToMemoryCache s k e now).memoryCache.map Prod.fst =
      (s.memoryCache.map Prod.fst).filter (fun x => x ≠ j) ++ [k] ∧
    (addToMemoryCache s k e now).memoryCache.length = s.maxMemorySize := by
  obtain ⟨hkeys, hnd, hlen⟩ := h
  have hndAt : (s.accessTimes.map Prod.fst).Nodup := hkeys ▸ hnd
  have hlru : argminFirst s.accessTimes = some j :=
    argminFirst_unique _ j tj hndAt hjmem hmin
  have hjmemKeys : j ∈ s.memoryCache.map Prod.fst := by
    rw [hkeys]
    exact List.mem_map.mpr ⟨(j, tj), hjmem, rfl⟩
  have hfull₂ : s.maxMemorySize ≤ s.memoryCache.length := le_of_eq hfull.symm
  unfold addToMemoryCache
  rw [if_pos hfull₂, hlru]
  have hknot : k ∉ (alErase j s.memoryCache).map Prod.fst := by
    rw [alErase_map_fst]
    intro hk
    exact hnew (List.mem_of_mem_eraseP hk)
  constructor
  · simp only
    rw [alSet_map_fst_of_not_mem _ _ _ hknot, alErase_map_fst,
      eraseP_eq_filter_of_nodup _ _ hnd]
  · simp only
    rw [alSet_length_of_not_mem _ _ _ hknot,
      alErase_length_of_mem _ _ hjmemKeys, hfull]
    omega

/-- The disk phase of `get` returns the default or a stored disk value. -/
theorem getDiskPhase_fst {α : Type} (md5hex : String → String)
    (s : CacheState α) (key : String) (dflt : α) (now : Nat) :
    (getDiskPhase md5hex s key dflt now).1 = dflt ∨
    (∃ e : CacheEntry α, alGet (md5hex key) s.diskFiles = some (some e) ∧
      (getDiskPhase md5hex s key dflt now).1 = e.value) := by
  unfold getDiskPhase
  cases hd : alGet (md5hex key) s.diskFiles with
  | none => left; rfl
  | some o =>
    cases o with
    | none => left; rfl
    | some entry =>
      by_cases hv : isValidEntry entry now
      · right
        exact ⟨entry, rfl, by simp [if_pos hv]⟩
      · left
        simp [if_neg hv]

/-- A corrupted disk entry makes the disk phase return the default. -/
theorem getDiskPhase_corrupt {α : Type} (md5hex : String → String)
    (s : CacheState α) (key : String) (dflt : α) (now : Nat)
    (hd : alGet (md5hex key) s.diskFiles = some none) :
    (getDiskPhase md5hex s key dflt now).1 = dflt := by
  simp [getDiskPhase, hd]

/-- Every character of a matched pattern occurs in the list it prefixes. -/
theorem isPrefixOf_subset {pat l : List Char}
    (h : pat.isPrefixOf l = true) : ∀ c ∈ pat, c ∈ l := by
  intro c hc
  obtain ⟨t, ht⟩ := List.isPrefixOf_iff_prefix.mp h
  rw [← ht]
  exact List.mem_append_left _ hc

/-- Every character of a contained substring occurs in the haystack. -/
theorem containsSub_subset {pat hay : List Char}
    (h : containsSub pat hay = true) : ∀ c ∈ pat, c ∈ hay := by
  induction hay with
  | nil =>
    intro c hc
    simp only [containsSub, List.isEmpty_iff] at h
    subst h
    simp at hc
  | cons a l ih =>
    intro c hc
    rw [containsSub] at h
    rcases Bool.or_eq_true_iff.mp h with h₁ | h₂
    · exact isPrefixOf_subset h₁ c hc
    · exact List.mem_cons_of_mem a (ih h₂ c hc)

/-- A pattern containing a character absent from the haystack is not a
substring of it. -/
theorem strContains_eq_false {hay pat : String} {c : Char}
    (hc : c ∈ pat.data) (hnc : c ∉ hay.data) : strContains hay pat = false := by
  by_contra h
  exact hnc (containsSub_subset (Bool.not_eq_false _ ▸ h) c hc)

/-- Counterexample for C7: with `max_memory_size = 0` the memory tier
exceeds its configured maximum after a single `set`, so the bound is not
an invariant for every configuration. -/
theorem c7_counterexample_max_zero :
    ¬ ((cacheSet (fun k => k)
        { memoryCache := [], accessTimes := [], diskFiles := [],
          maxMemorySize := 0, defaultTtl := 3600 } "k" (0 : Nat)
        none 0).1.memoryCache.length ≤
      (cacheSet (fun k => k)
        { memoryCache := [], accessTimes := [], diskFiles := [],
          maxMemorySize := 0, defaultTtl := 3600 } "k" (0 : Nat)
        none 0).1.maxMemorySize) := by
  decide

/-- C7 (amended): provided `max_memory_size ≥ 1`, the memory-tier
invariant (aligned duplicate-free key dicts, size within the bound) is
preserved by `get`, `set`, `delete`, `clear` and `cleanup_expired`; and
inserting a fresh key into a full tier evicts exactly the key with the
unique oldest recorded access time — regardless of insertion order —
leaving the tier at its bound. -/
theorem c7_amended_memory_bound_and_lru (α : Type) (md5hex : String → String)
    (s : CacheState α) (key : String) (dflt v : α) (ttl : Option Nat)
    (pat : Option String) (now : Nat) (k j : String) (e : CacheEntry α)
    (tj : Nat) (hmax : 1 ≤ s.maxMemorySize) (hinv : CacheInv s) :
    (CacheInv (cacheGet md5hex s key dflt now).2 ∧
     CacheInv (cacheSet md5hex s key v ttl now).1 ∧
     CacheInv (cacheDelete md5hex s key).1 ∧
     CacheInv (cacheClear md5hex s pat).1 ∧
     CacheInv (cleanupExpired s now).1) ∧
    (s.memoryCache.length = s.maxMemorySize →
     k ∉ s.memoryCache.map Prod.fst →
     (j, tj) ∈ s.accessTimes →
     (∀ p ∈ s.accessTimes, p.1 ≠ j → tj < p.2) →
     ((addToMemoryCache s k e now).memoryCache.map Prod.fst =
        (s.memoryCache.map Prod.fst).filter (fun x => x ≠ j) ++ [k] ∧
      j ∉ (addToMemoryCache s k e now).memoryCache.map Prod.fst ∧
      k ∈ (addToMemoryCache s k e now).memoryCache.map Prod.fst ∧
      (∀ x ∈ s.memoryCache.map Prod.fst, x ≠ j →
        x ∈ (addToMemoryCache s k e now).memoryCache.map Prod.fst) ∧
      (addToMemoryCache s k e now).memoryCache.length = s.maxMemorySize)) := by
  refine ⟨⟨cacheGet_inv _ _ _ _ _ hmax hinv,
    cacheSet_inv _ _ _ _ _ _ hmax hinv, cacheDelete_inv _ _ _ hinv,
    cacheClear_inv _ _ _ hinv, cleanupExpired_inv _ _ hinv⟩, ?_⟩
  intro hfull hnew hjmem hmin
  obtain ⟨heq, hlr⟩ :=
    addToMemoryCache_evicts s k j e now tj hinv hmax hfull hnew hjmem hmin
  have hjmemKeys : j ∈ s.memoryCache.map Prod.fst := by
    rw [hinv.1]
    exact List.mem_map.mpr ⟨(j, tj), hjmem, rfl⟩
  have hjk : j ≠ k := fun he => hnew (he ▸ hjmemKeys)
  refine ⟨heq, ?_, ?_, ?_, hlr⟩
  · rw [heq]
    simp [List.mem_filter, hjk]
  · rw [heq]
    simp
  · intro x hx hxj
    rw [heq]
    simp [List.mem_filter, hx, hxj]

/-- Witness for C7 (amended) on the concrete tier `cacheC7Ex`: the
invariant survives a `set`, and inserting the fresh key `b` evicts `y`
(oldest access time 5, though inserted last) and keeps `x` and `b`. -/
theorem c7_amended_witness :
    CacheInv (cacheSet (fun k => k) cacheC7Ex "q" (5 : Nat) none 30).1 ∧
    "y" ∉ (addToMemoryCache cacheC7Ex "b" ⟨7, 50, 0⟩ 30).memoryCache.map
      Prod.fst ∧
    "b" ∈ (addToMemoryCache cacheC7Ex "b" ⟨7, 50, 0⟩ 30).memoryCache.map
      Prod.fst ∧
    (addToMemoryCache cacheC7Ex "b" ⟨7, 50, 0⟩ 30).memoryCache.length =
      cacheC7Ex.maxMemorySize := by
  have H := c7_amended_memory_bound_and_lru Nat (fun k => k) cacheC7Ex
    "q" 0 5 none none 30 "b" "y" ⟨7, 50, 0⟩ 5 (by decide) (by decide)
  have E := H.2 (by decide) (by decide) (by decide) (by decide)
  exact ⟨H.1.2.1, E.2.1, E.2.2.1, E.2.2.2.2⟩

/-- C8: the spec says `clear(pattern)` removes every entry whose logical
key contains the pattern from both tiers, but on the disk tier the code
matches the pattern against the MD5 hex digest (the file stem).  Because a
hex digest only contains hexadecimal characters, a pattern such as
`discovery` (with the non-hex character `s`) never matches a digest: with
the matching entry present only on disk, `clear` removes nothing and
returns 0. -/
theorem c8_clear_pattern_ignores_disk_keys (α : Type)
    (md5hex : String → String) (e : CacheEntry α)
    (hhex : ∀ c ∈ (md5hex ("discovery:dataset:x")).data, c ∈ hexDigits) :
    strContains ("discovery:dataset:x") ("discovery") = true ∧
    (cacheClear md5hex
        { memoryCache := [], accessTimes := [],
          diskFiles := [(md5hex ("discovery:dataset:x"), some e)],
          maxMemorySize := 100, defaultTtl := 3600 }
        (some ("discovery"))).1.diskFiles =
      [(md5hex ("discovery:dataset:x"), some e)] ∧
    (cacheClear md5hex
        { memoryCache := [], accessTimes := [],
          diskFiles := [(md5hex ("discovery:dataset:x"), some e)],
          maxMemorySize := 100, defaultTtl := 3600 }
        (some ("discovery"))).2 = 0 := by
  have hs : ('s' : Char) ∈ ("discovery").data := by decide
  have hsnot : ('s' : Char) ∉ (md5hex ("discovery:dataset:x")).data := by
    intro hmem
    exact absurd (hhex _ hmem) (by decide)
  have hfalse :
      strContains (md5hex ("discovery:dataset:x")) ("discovery") = false :=
    strContains_eq_false hs hsnot
  refine ⟨by decide, ?_, ?_⟩
  · simp [cacheClear, hfalse]
  · simp [cacheClear, hfalse]

/-- Witness for C8 with a concrete stand-in digest function. -/
theorem c8_clear_pattern_ignores_disk_keys_witness :
    strContains ("discovery:dataset:x") ("discovery") = true ∧
    (cacheClear (fun _ => ("0a1b2c3d"))
        { memoryCache := [], accessTimes := [],
          diskFiles := [(("0a1b2c3d"), some (⟨0, 0, 0⟩ : CacheEntry Nat))],
          maxMemorySize := 100, defaultTtl := 3600 }
        (some ("discovery"))).1.diskFiles =
      [(("0a1b2c3d"), some (⟨0, 0, 0⟩ : CacheEntry Nat))] ∧
    (cacheClear (fun _ => ("0a1b2c3d"))
        { memoryCache := [], accessTimes := [],
          diskFiles := [(("0a1b2c3d"), some (⟨0, 0, 0⟩ : CacheEntry Nat))],
          maxMemorySize := 100, defaultTtl := 3600 }
        (some ("discovery"))).2 = 0 :=
  c8_clear_pattern_ignores_disk_keys Nat (fun _ => ("0a1b2c3d")) ⟨0, 0, 0⟩
    (by decide)

/-- C10: `get` is total — it returns either the caller's default or a
value stored in one of the two tiers, and in particular when the disk
entry is corrupted (its deserialization raises) and the memory tier has
no valid entry, the swallowed exception yields the default. -/
theorem c10_get_total_never_raises (α : Type) (md5hex : String → String)
    (s : CacheState α) (key : String) (dflt : α) (now : Nat) :
    ((cacheGet md5hex s key dflt now).1 = dflt ∨
     (∃ e : CacheEntry α, alGet key s.memoryCache = some e ∧
        (cacheGet md5hex s key dflt now).1 = e.value) ∨
     (∃ e : CacheEntry α, alGet (md5hex key) s.diskFiles = some (some e) ∧
        (cacheGet md5hex s key dflt now).1 = e.value)) ∧
    (alGet (md5hex key) s.diskFiles = some none →
     (∀ e : CacheEntry α, alGet key s.memoryCache = some e →
        isValidEntry e now = false) →
     (cacheGet md5hex s key dflt now).1 = dflt) := by
  constructor
  · unfold cacheGet
    cases hm : alGet key s.memoryCache with
    | none =>
      rcases getDiskPhase_fst md5hex s key dflt now with h | ⟨e, he, hv⟩
      · exact Or.inl h
      · exact Or.inr (Or.inr ⟨e, he, hv⟩)
    | some entry =>
      by_cases hv : isValidEntry entry now
      · simp only [if_pos hv]
        exact Or.inr (Or.inl ⟨entry, rfl, rfl⟩)
      · simp only [if_neg hv]
        rcases getDiskPhase_fst md5hex
            { s with memoryCache := alErase key s.memoryCache,
                     accessTimes := alErase key s.accessTimes }
            key dflt now with h | ⟨e, he, hval⟩
        · exact Or.inl h
        · exact Or.inr (Or.inr ⟨e, he, hval⟩)
  · intro hcor hval
    unfold cacheGet
    cases hm : alGet key s.memoryCache with
    | none => exact getDiskPhase_corrupt md5hex s key dflt now hcor
    | some entry =>
      have hbad := hval entry hm
      simp only [hbad, Bool.false_eq_true, if_false]
      exact getDiskPhase_corrupt md5hex _ key dflt now hcor

/-- Witness for C10: a corrupted on-disk entry under the key's digest with
an empty memory tier makes `get` return the supplied default. -/
theorem c10_get_total_never_raises_witness :
    (cacheGet (fun k => k ++ (".md5"))
      { memoryCache := [], accessTimes := [],
        diskFiles := [(("k.md5"), (none : Option (CacheEntry Nat)))],
        maxMemorySize := 100, defaultTtl := 3600 } "k" 42 0).1 = 42 :=
  (c10_get_total_never_raises Nat (fun k => k ++ (".md5"))
    { memoryCache := [], accessTimes := [],
      diskFiles := [(("k.md5"), (none : Option (CacheEntry Nat)))],
      maxMemorySize := 100, defaultTtl := 3600 } "k" 42 0).2 (by decide)
    (fun e h => by simp [alGet] at h)

/-- Parsing a rendered digit is exact. -/
theorem digitVal_digitChar48 (d : Nat) (h : d < 10) :
    digitVal (digitChar48 d) = some d := by
  interval_cases d <;> decide

/-- Two-digit parse/render round trip. -/
theorem num2_digits (n : Nat) (h : n < 100) :
    num2 (digitChar48 (n / 10 % 10)) (digitChar48 (n % 10)) = some n := by
  have h1 := digitVal_digitChar48 (n / 10 % 10) (Nat.mod_lt _ (by norm_num))
  have h2 := digitVal_digitChar48 (n % 10) (Nat.mod_lt _ (by norm_num))
  simp only [num2, h1, h2, Option.bind_eq_bind, Option.some_bind,
    Option.some.injEq]
  omega

/-- Four-digit parse/render round trip. -/
theorem num4_digits (n : Nat) (h : n < 10000) :
    num4 (digitChar48 (n / 1000 % 10)) (digitChar48 (n / 100 % 10))
      (digitChar48 (n / 10 % 10)) (digitChar48 (n % 10)) = some n := by
  have h1 := digitVal_digitChar48 (n / 1000 % 10) (Nat.mod_lt _ (by norm_num))
  have h2 := digitVal_digitChar48 (n / 100 % 10) (Nat.mod_lt _ (by norm_num))
  have h3 := digitVal_digitChar48 (n / 10 % 10) (Nat.mod_lt _ (by norm_num))
  have h4 := digitVal_digitChar48 (n % 10) (Nat.mod_lt _ (by norm_num))
  simp only [num4, num2, h1, h2, h3, h4, Option.bind_eq_bind,
    Option.some_bind, Option.some.injEq]
  omega

/-- Six-digit parse/render round trip. -/
theorem num6_digits (n : Nat) (h : n < 1000000) :
    num6 (digitChar48 (n / 100000 % 10)) (digitChar48 (n / 10000 % 10))
      (digitChar48 (n / 1000 % 10)) (digitChar48 (n / 100 % 10))
      (digitChar48 (n / 10 % 10)) (digitChar48 (n % 10)) = some n := by
  have h1 := digitVal_digitChar48 (n / 100000 % 10) (Nat.mod_lt _ (by norm_num))
  have h2 := digitVal_digitChar48 (n / 10000 % 10) (Nat.mod_lt _ (by norm_num))
  have h3 := digitVal_digitChar48 (n / 1000 % 10) (Nat.mod_lt _ (by norm_num))
  have h4 := digitVal_digitChar48 (n / 100 % 10) (Nat.mod_lt _ (by norm_num))
  have h5 := digitVal_digitChar48 (n / 10 % 10) (Nat.mod_lt _ (by norm_num))
  have h6 := digitVal_digitChar48 (n % 10) (Nat.mod_lt _ (by norm_num))
  simp only [num6, num2, h1, h2, h3, h4, h5, h6, Option.bind_eq_bind,
    Option.some_bind, Option.some.injEq]
  omega

/-- `parseFour` consumes exactly a rendered four-digit group. -/
theorem parseFour_pad4 (n : Nat) (h : n < 10000) (rest : List Char) :
    parseFour (pad4 n ++ rest) = some (n, rest) := by
  simp [pad4, parseFour, num4_digits n h]

/-- `parseTwo` consumes exactly a rendered two-digit group. -/
theorem parseTwo_pad2 (n : Nat) (h : n < 100) (rest : List Char) :
    parseTwo (pad2 n ++ rest) = some (n, rest) := by
  simp [pad2, parseTwo, num2_digits n h]

/-- `expectChar` consumes exactly the expected separator. -/
theorem expectChar_cons (c : Char) (rest : List Char) :
    expectChar c (c :: rest) = some rest := by
  simp [expectChar]

set_option maxHeartbeats 2000000 in
/-- Parsing inverts printing for in-range timestamps (C9 core): the ISO
string emitted by `isoformat` parses back to the same `PyDateTime`,
including the microsecond field. -/
theorem fromisoformat_isoformat (t : PyDateTime) (hy : t.year < 10000)
    (hmo : t.month < 100) (hd : t.day < 100) (hh : t.hour < 100)
    (hmi : t.minute < 100) (hs : t.second < 100)
    (hus : t.microsecond < 1000000) :
    fromisoformat (isoformat t).data = some t := by
  have hdata : (isoformat t).data =
      pad4 t.year ++ '-' :: (pad2 t.month ++ '-' :: (pad2 t.day ++ 'T' ::
        (pad2 t.hour ++ ':' :: (pad2 t.minute ++ ':' :: (pad2 t.second ++
          (if t.microsecond = 0 then []
           else '.' :: pad6 t.microsecond)))))) := rfl
  rw [hdata]
  by_cases hz : t.microsecond = 0
  · rw [if_pos hz]
    simp only [fromisoformat, parseFour_pad4 _ hy, parseTwo_pad2 _ hmo,
      parseTwo_pad2 _ hd, parseTwo_pad2 _ hh, parseTwo_pad2 _ hmi,
      parseTwo_pad2 _ hs, expectChar_cons, Option.bind_eq_bind,
      Option.some_bind]
    rw [← hz]
  · rw [if_neg hz]
    simp only [fromisoformat, parseFour_pad4 _ hy, parseTwo_pad2 _ hmo,
      parseTwo_pad2 _ hd, parseTwo_pad2 _ hh, parseTwo_pad2 _ hmi,
      parseTwo_pad2 _ hs, expectChar_cons, Option.bind_eq_bind,
      Option.some_bind, pad6]
    simp only [num6_digits _ hus, Option.map_some']

/-- A rendered ISO timestamp is never the empty string. -/
theorem isoformat_ne_empty (t : PyDateTime) : isoformat t ≠ "" := by
  intro h
  have h₂ : (isoformat t).data = ("").data := congrArg String.data h
  simp [isoformat, pad4] at h₂

/-- The `from_dict` timestamp handling inverts the `to_dict` rendering for
in-range timestamps. -/
theorem parseOptTimestamp_roundtrip (o : Option PyDateTime)
    (h : ValidTimestamp o) :
    parseOptTimestamp (o.map (fun t => isoformat t)) = some o := by
  cases o with
  | none => rfl
  | some t =>
    obtain ⟨h1, h2, h3, h4, h5, h6, h7⟩ := h
    simp only [Option.map_some', parseOptTimestamp,
      if_neg (isoformat_ne_empty t),
      fromisoformat_isoformat t h1 h2 h3 h4 h5 h6 h7]

/-- C9: `from_dict` inverts `to_dict` — the reconstructed record equals
the original (in particular `repo_id`, `downloads` and `priority_score`
agree), with both timestamps round-tripping through their ISO string
form without loss, including microseconds. -/
theorem c9_metadata_serialization_roundtrip (m : RepositoryMetadata)
    (hca : ValidTimestamp m.createdAt) (hua : ValidTimestamp m.updatedAt) :
    fromDict (toDict m) = some m := by
  have h1 : parseOptTimestamp ((toDict m).createdAt) = some m.createdAt :=
    parseOptTimestamp_roundtrip m.createdAt hca
  have h2 : parseOptTimestamp ((toDict m).updatedAt) = some m.updatedAt :=
    parseOptTimestamp_roundtrip m.updatedAt hua
  simp only [fromDict, h1, h2, Option.bind_eq_bind, Option.some_bind]
  rfl

/-- Witness for C9 on a concrete record with a microsecond-carrying
creation timestamp and a whole-second update timestamp. -/
theorem c9_metadata_serialization_roundtrip_witness :
    fromDict (toDict
      { repoId := "o/r", repoType := "dataset", title := "T",
        description := "D",
        createdAt := some ⟨2024, 5, 17, 10, 30, 59, 123456⟩,
        updatedAt := some ⟨2025, 1, 2, 3, 4, 5, 0⟩,
        downloads := 7, priorityScore := 55 }) =
    some
      { repoId := "o/r", repoType := "dataset", title := "T",
        description := "D",
        createdAt := some ⟨2024, 5, 17, 10, 30, 59, 123456⟩,
        updatedAt := some ⟨2025, 1, 2, 3, 4, 5, 0⟩,
        downloads := 7, priorityScore := 55 } :=
  c9_metadata_serialization_roundtrip
    { repoId := "o/r", repoType := "dataset", title := "T",
      description := "D",
      createdAt := some ⟨2024, 5, 17, 10, 30, 59, 123456⟩,
      updatedAt := some ⟨2025, 1, 2, 3, 4, 5, 0⟩,
      downloads := 7, priorityScore := 55 } (by decide) (by decide)
